import Mathlib

/-!
Verification development for the "Neural Spark Network" particle simulation
(`script.js`).  The simulation core is shallowly embedded below: pure helper
functions become Lean functions over `ℚ` (or `ℝ` for the gamma-correct color
pipeline), the per-frame mutation of the engine is explicit state passing.

Modelling conventions, used consistently and noted at each definition:

* JS numbers are modelled exactly: `ℚ` for all simulation state that the code
  manipulates with field operations, `ℝ` for the color pipeline which uses the
  transcendental gamma exponent 2.2.
* The transcendental functions the engine calls (`Math.sin`, `Math.cos`,
  `Math.pow` with the damping/decay bases, `Math.hypot`, `Math.random`) are
  abstracted as fields of an `Oracle` parameter.  Every general theorem
  quantifies over all oracles, hence covers in particular the true
  floating-point semantics; concrete runs instantiate the oracle with values
  that agree with the true functions on every input actually used.
* JS object references are modelled by the spark `id` (unique, assigned at
  spawn from a monotone counter and never reused), with lookups in the
  engine's spark list.  The spatial grid and the connection ledger therefore
  store ids / id pairs where the source stores object references.
-/

namespace SparkSim

/-- Utility from the source: `clamp(v, min, max) = Math.max(min, Math.min(max, v))`. -/
def clamp {α : Type} [LinearOrder α] (v mn mx : α) : α :=
  max mn (min mx v)

/-- Utility from the source: `lerp(a, b, t) = a + (b - a) * t`. -/
def lerp {α : Type} [Ring α] (a b t : α) : α :=
  a + (b - a) * t

/-- Utility from the source: `smoothstep(edge0, edge1, x)` with
`t = clamp((x - edge0) / (edge1 - edge0), 0, 1)` returning `t*t*(3 - 2*t)`. -/
def smoothstep {α : Type} [LinearOrderedField α] (edge0 edge1 x : α) : α :=
  let t := clamp ((x - edge0) / (edge1 - edge0)) 0 1
  t * t * (3 - 2 * t)

/-! ## Configuration constants (`CONFIG` in the source), written as exact rationals. -/

def interactionRadius : ℚ := 110
def transferRatePerSec : ℚ := 3 / 5
def colorRatePerSec : ℚ := 1
def energyDecayPerSec : ℚ := 9 / 500
def energyFloor : ℚ := 3 / 20
def maxFlowParticles : ℕ := 100
def flowParticleSpeed : ℚ := 60
def flowSpawnRate : ℚ := 1 / 5
def maxInteractionsPerFrame : ℕ := 1200
def maxSpeed : ℚ := 20
def driftStrength : ℚ := 10
def spawnRatePerSec : ℚ := 5
def fadeSpeed : ℚ := 3

/-! ## Gamma-correct color mixing (source lines 78–97), over `ℝ`.

The gamma exponent is 2.2, so these functions use real powers (`Real.rpow`);
`Math.round` is Mathlib's `round` (both round half towards positive infinity).
-/

def GAMMA : ℝ := 2.2

/-- Source: `toLinear(c) = Math.pow(c / 255, GAMMA)`. -/
noncomputable def toLinear (c : ℝ) : ℝ :=
  (c / 255) ^ GAMMA

/-- Source: `toSRGB(c) = Math.round(Math.pow(clamp(c, 0, 1), 1 / GAMMA) * 255)`. -/
noncomputable def toSRGB (c : ℝ) : ℤ :=
  round (clamp c 0 1 ^ (1 / GAMMA) * 255)

/-- Source: the pigment darkening factor `1 - t * (1 - t) * 0.15` in
`mixColorsLinear`. -/
def darkenFactor (t : ℝ) : ℝ :=
  1 - t * (1 - t) * 0.15

/-- Source: `mixColorsLinear(c1, c2, t)`: convert each channel to linear space,
interpolate, darken, convert back.  Channels of the result are the rounded
integers the source produces. -/
noncomputable def mixColorsLinear (c1 c2 : ℝ × ℝ × ℝ) (t : ℝ) : ℤ × ℤ × ℤ :=
  let r := lerp (toLinear c1.1) (toLinear c2.1) t
  let g := lerp (toLinear c1.2.1) (toLinear c2.2.1) t
  let b := lerp (toLinear c1.2.2) (toLinear c2.2.2) t
  (toSRGB (r * darkenFactor t), toSRGB (g * darkenFactor t), toSRGB (b * darkenFactor t))

/-- The gamma round trip `toSRGB ∘ toLinear` applied to each channel: what
`mixColorsLinear c1 c2 1` computes once the darkening factor is 1. -/
noncomputable def gammaRoundTrip (c : ℝ × ℝ × ℝ) : ℤ × ℤ × ℤ :=
  (toSRGB (toLinear c.1), toSRGB (toLinear c.2.1), toSRGB (toLinear c.2.2))

/-! ## Per-step pieces of the simulation, over `ℚ`. -/

/-- Source (lines 295–298): toroidal wrap of one coordinate, two sequential
conditionals: `if (x < 0) x += w; if (x > w) x -= w;`. -/
def wrapCoord (x w : ℚ) : ℚ :=
  let x1 := if x < 0 then x + w else x
  if w < x1 then x1 - w else x1

/-- Source (lines 459–460): the amount of energy moved for a resolved pair,
`clamp(w * transferRatePerSec * dt, 0, 1) * Math.max(0, giverEnergy - energyFloor)`. -/
def transferDelta (g w dt : ℚ) : ℚ :=
  clamp (w * transferRatePerSec * dt) 0 1 * max 0 (g - energyFloor)

/-- Source (lines 459–463): the energy transfer applied to a resolved pair;
returns the (giver, receiver) energies after the transfer.  The giver loses
`transferDelta`, the receiver gains the same amount capped at 1. -/
def energyTransfer (g r w dt : ℚ) : ℚ × ℚ :=
  (g - transferDelta g w dt, min 1 (r + transferDelta g w dt))

/-- Source (line 301–302): multiplicative energy decay followed by the floor,
`energy = Math.max(energyFloor * 0.5, energy * Math.pow(1 - energyDecayPerSec, dt))`.
The factor `Math.pow(1 - energyDecayPerSec, dt)` (a value in `(0, 1]` for
`dt ≥ 0`) is passed in as `f`. -/
def energyDecayStep (e f : ℚ) : ℚ :=
  max (energyFloor * (1 / 2)) (e * f)

/-- Source (line 238): energy assigned at spawn, `0.4 + Math.random() * 0.4`,
with the random draw `u ∈ [0, 1)` passed in. -/
def spawnEnergy (u : ℚ) : ℚ :=
  2 / 5 + u * (2 / 5)

/-- The energy invariant of the data model: `energyFloor·0.5 ≤ energy ≤ 1`. -/
def einv (e : ℚ) : Prop :=
  energyFloor * (1 / 2) ≤ e ∧ e ≤ 1

instance (e : ℚ) : Decidable (einv e) := by
  unfold einv; infer_instance

/-- Source (lines 447–449): one smoothing step of a connection's strength
toward the target weight, then clamped to `[0,1]`:
`strength += (targetW - strength) * fadeSpeed * dt; strength = clamp(strength, 0, 1)`. -/
def connStrengthStep (s targetW dt : ℚ) : ℚ :=
  clamp (s + (targetW - s) * fadeSpeed * dt) 0 1

/-! ## Data model -/

/-- The `Spark` entity (source lines 224–266).  All numeric fields are exact
rationals; `color` is an RGB triple.  `w`/`h` are the viewport dimensions the
spark captured at construction, as in the source. -/
structure Spark where
  id : ℕ
  x : ℚ
  y : ℚ
  w : ℚ
  h : ℚ
  vx : ℚ
  vy : ℚ
  baseRadius : ℚ
  energy : ℚ
  seedFeature : ℚ
  color : ℚ × ℚ × ℚ
  birth : ℚ
  lifetime : ℚ
  polarity : ℚ
  ringAlpha : ℚ
  fade : ℚ
  deriving DecidableEq, Repr

/-- A `FlowParticle` (source lines 189–216).  The source stores object
references to the giver and receiver; here the spark values are stored and
refreshed from the engine's live spark list on every update (see
`FlowParticle.update`), so a live endpoint is always read at its current
value and a dead endpoint keeps its last value — exactly the reference
semantics, given unique never-reused ids. -/
structure FlowParticle where
  giver : Spark
  receiver : Spark
  t : ℚ
  color : ℚ × ℚ × ℚ
  alpha : ℚ
  size : ℚ
  deriving DecidableEq, Repr

/-- A connection ledger entry (source line 439: `{ strength, a, b }`), with
the two spark references stored as values (their ids are what the engine
reads). -/
structure Conn where
  strength : ℚ
  a : Spark
  b : Spark
  deriving DecidableEq, Repr

/-- The connection ledger: a JS `Map` from canonical pair key to connection,
modelled as an association list in insertion order. -/
abbrev ConnMap := List ((ℕ × ℕ) × Conn)

/-- Oracle for the transcendental / random functions the engine calls.  Each
field stands for one JS expression:
`sin`/`cos` for `Math.sin`/`Math.cos`; `powDamp dt` for
`Math.pow(CONFIG.damping, dt * 60)`; `powDecay dt` for
`Math.pow(1 - CONFIG.energyDecayPerSec, dt)`; `hyp` for `Math.hypot`;
`rand n` for the n-th `Math.random()` draw of the interaction pass;
`mixc` for `mixColorsLinear` (the true function is defined over `ℝ` above;
engine-level claims hold for every mixing function since colors never feed
back into control flow); `fresh n` for the randomly initialised spark built
by `spawnSpark` (its `id` field is overwritten with the engine counter). -/
structure Oracle where
  sin : ℚ → ℚ
  cos : ℚ → ℚ
  powDamp : ℚ → ℚ
  powDecay : ℚ → ℚ
  hyp : ℚ → ℚ → ℚ
  rand : ℕ → ℚ
  mixc : ℚ × ℚ × ℚ → ℚ × ℚ × ℚ → ℚ → ℚ × ℚ × ℚ
  fresh : ℕ → Spark

/-! ## Spatial hash grid (source lines 140–183)

The grid maps a discretised cell coordinate to the list of sparks inserted
into that cell, in insertion order.  The source stores object references and
compares with `!==`; here spark ids are stored (ids are unique).  The string
key `"col,row"` is modelled by the pair `(col, row)` — the encoding is
injective.  The `cols`/`rows` fields of the source are never read by any
behaviour and are not modelled. -/
abbrev SpatialGrid := ℤ × ℤ → List ℕ

def SpatialGrid.empty : SpatialGrid := fun _ => []

/-- Source `getKey(x, y)`: `(Math.floor(x / cellSize), Math.floor(y / cellSize))`. -/
def SpatialGrid.getKey (cellSize x y : ℚ) : ℤ × ℤ :=
  (⌊x / cellSize⌋, ⌊y / cellSize⌋)

/-- Source `insert(spark)`: push the spark onto its cell's list. -/
def SpatialGrid.insert (cellSize : ℚ) (g : SpatialGrid) (s : Spark) : SpatialGrid :=
  fun k => if k = SpatialGrid.getKey cellSize s.x s.y then g k ++ [s.id] else g k

/-- The per-frame grid rebuild: clear, then insert every spark (source lines
406–409). -/
def buildGrid (cellSize : ℚ) (sparks : List Spark) : SpatialGrid :=
  sparks.foldl (SpatialGrid.insert cellSize) SpatialGrid.empty

/-- The 3×3 block of cell offsets scanned by `getNeighbors`, in source
iteration order (`dc` outer loop, `dr` inner loop, each from −1 to 1). -/
def neighborOffsets : List (ℤ × ℤ) :=
  [(-1, -1), (-1, 0), (-1, 1), (0, -1), (0, 0), (0, 1), (1, -1), (1, 0), (1, 1)]

/-- Source `getNeighbors(spark)`: scan the 3×3 block of cells around the
spark's cell, collecting every stored spark other than the queried one
(`other !== spark`, here id inequality). -/
def SpatialGrid.getNeighbors (g : SpatialGrid) (cellSize : ℚ) (selfId : ℕ) (x y : ℚ) :
    List ℕ :=
  (neighborOffsets.map fun o =>
    (g (⌊x / cellSize⌋ + o.1, ⌊y / cellSize⌋ + o.2)).filter fun i => i ≠ selfId).flatten

/-! ## Per-frame spark advance (source lines 268–313) -/

/-- Source `Spark.update(dt, time)`: drift, damping, speed clamp, integration,
toroidal wrap, energy decay with floor, ring-alpha decay, fade computation.
Returns the updated spark and the liveness flag `age < lifetime`. -/
def Spark.update (O : Oracle) (dt time : ℚ) (s : Spark) : Spark × Bool :=
  let age := time - s.birth
  let lifeRatio := age / s.lifetime
  let noiseX := O.sin (time * (1 / 1000) + s.seedFeature * 10) * driftStrength
  let noiseY := O.cos (time * (3 / 2500) + s.seedFeature * 7) * driftStrength
  let vx1 := s.vx + noiseX * dt
  let vy1 := s.vy + noiseY * dt
  let vx2 := vx1 * O.powDamp dt
  let vy2 := vy1 * O.powDamp dt
  let speed := O.hyp vx2 vy2
  let vx3 := if maxSpeed < speed then vx2 / speed * maxSpeed else vx2
  let vy3 := if maxSpeed < speed then vy2 / speed * maxSpeed else vy2
  let x1 := wrapCoord (s.x + vx3 * dt) s.w
  let y1 := wrapCoord (s.y + vy3 * dt) s.h
  let e1 := energyDecayStep s.energy (O.powDecay dt)
  let ring1 := s.ringAlpha * (9 / 10)
  let fadeIn := clamp (age / 500) 0 1
  let fadeOut := if 3 / 4 < lifeRatio then 1 - (lifeRatio - 3 / 4) / (1 / 4) else 1
  ({ s with vx := vx3, vy := vy3, x := x1, y := y1, energy := e1,
            ringAlpha := ring1, fade := fadeIn * fadeOut },
   decide (age < s.lifetime))

/-! ## Engine state and helpers -/

/-- Look up a spark by id in the engine's spark list (models dereferencing a
stored JS object reference, ids being unique and never reused). -/
def getSpark (sparks : List Spark) (i : ℕ) : Option Spark :=
  sparks.find? fun s => s.id = i

/-- Mutate the spark with the given id in place (models a field assignment
through a JS reference). -/
def mapSpark (sparks : List Spark) (i : ℕ) (f : Spark → Spark) : List Spark :=
  sparks.map fun s => if s.id = i then f s else s

/-- Source `FlowParticle.update(dt)` (lines 199–208): progress advances at a
speed inversely proportional to the current giver–receiver distance (floored
at 1); the particle survives while `t < 1`.  Live endpoint values are read
from the engine's spark list (JS reads them through the stored references). -/
def FlowParticle.update (O : Oracle) (sparks : List Spark) (dt : ℚ)
    (fp : FlowParticle) : Option FlowParticle :=
  let g := (getSpark sparks fp.giver.id).getD fp.giver
  let r := (getSpark sparks fp.receiver.id).getD fp.receiver
  let dist := O.hyp (r.x - g.x) (r.y - g.y)
  let speed := flowParticleSpeed / max dist 1
  let t1 := fp.t + speed * dt
  if t1 < 1 then
    some { fp with giver := g, receiver := r, t := t1, alpha := 4 / 5 * (1 - t1) }
  else none

/-- Source `getConnectionKey(a, b)` (lines 399–402): the canonical unordered
pair key, smaller id first (the string `"i-j"` is modelled by the pair). -/
def pairKey (a b : ℕ) : ℕ × ℕ :=
  if a < b then (a, b) else (b, a)

/-- Source line 454–455: the ternary selecting giver and receiver,
`spark.polarity > other.polarity ? spark : other` (and mirrored). -/
def pickGiver (spark other : Spark) : Spark × Spark :=
  if other.polarity < spark.polarity then (spark, other) else (other, spark)

/-- JS `Map.get` on the connection ledger. -/
def connsGet (cs : ConnMap) (k : ℕ × ℕ) : Option Conn :=
  (cs.find? fun kc => kc.1 = k).map fun kc => kc.2

/-- JS `Map.set` on the connection ledger: replace in place if the key is
present, else append (insertion order preserved). -/
def connsSet (cs : ConnMap) (k : ℕ × ℕ) (c : Conn) : ConnMap :=
  if cs.any fun kc => kc.1 = k then
    cs.map fun kc => if kc.1 = k then (k, c) else kc
  else cs ++ [(k, c)]

/-- The mutable state threaded through the interaction-resolution pass:
the spark store, flow particles, connection ledger, the `interactions`
counter, the `processed` and `activeConnections` sets, and the index into
the random stream. -/
structure LoopSt where
  sparks : List Spark
  flows : List FlowParticle
  conns : ConnMap
  interactions : ℕ
  processed : List (ℕ × ℕ)
  active : List (ℕ × ℕ)
  rng : ℕ
  deriving Repr

/-- The probabilistic flow-particle spawn at the end of a transfer (source
lines 474–480): only when the strength exceeds the 0.2 visibility threshold
and the flow population is below its cap, draw one random number and compare
against `w * flowSpawnRate * dt * 60`; on success construct a `FlowParticle`
referencing the (already updated) giver and receiver, colored as the
30%-blend of their current colors, with a second random draw for its size. -/
def spawnFlowMaybe (O : Oracle) (dt w : ℚ) (gv rv : Spark) (ls : LoopSt) : LoopSt :=
  if 1 / 5 < w ∧ ls.flows.length < maxFlowParticles then
    if O.rand ls.rng < w * flowSpawnRate * dt * 60 then
      let fp : FlowParticle :=
        ⟨gv, rv, 0, O.mixc gv.color rv.color (3 / 10), 4 / 5, 3 / 2 + O.rand (ls.rng + 1)⟩
      { ls with flows := ls.flows ++ [fp], rng := ls.rng + 2 }
    else { ls with rng := ls.rng + 1 }
  else ls

/-- The active-transfer body (source lines 458–480), entered when the
connection strength `w` exceeds the 0.1 activation threshold: move
`transferDelta` energy from giver to receiver, raise the giver's ring alpha
to at least `w * 0.5`, contaminate the receiver's color toward the giver's
(and tint the giver back by a quarter step), then maybe spawn a flow
particle. -/
def applyTransfer (O : Oracle) (dt w : ℚ) (giver receiver : Spark) (ls : LoopSt) :
    LoopSt :=
  let er := energyTransfer giver.energy receiver.energy w dt
  let ring := max giver.ringAlpha (w * (1 / 2))
  let colorT := clamp (w * w * colorRatePerSec * dt) 0 (1 / 5)
  let rc := O.mixc receiver.color giver.color colorT
  let gc := O.mixc giver.color rc (colorT * (1 / 4))
  let sparks1 := mapSpark ls.sparks giver.id fun s =>
    { s with energy := er.1, ringAlpha := ring, color := gc }
  let sparks2 := mapSpark sparks1 receiver.id fun s =>
    { s with energy := er.2, color := rc }
  let gv := { giver with energy := er.1, ringAlpha := ring, color := gc }
  let rv := { receiver with energy := er.2, color := rc }
  spawnFlowMaybe O dt w gv rv { ls with sparks := sparks2 }

/-- Resolution of one in-radius pair (source lines 430–481): count it, mark it
active, smooth the connection strength toward the smoothstep target, pick
giver/receiver by polarity and — when the strength exceeds the 0.1 activation
threshold — run the transfer body. -/
def resolvePair (O : Oracle) (dt : ℚ) (ls : LoopSt) (spark other : Spark)
    (k : ℕ × ℕ) (dist : ℚ) : LoopSt :=
  let ls1 := { ls with interactions := ls.interactions + 1, active := k :: ls.active }
  let targetW := smoothstep interactionRadius 0 dist
  let c0 := (connsGet ls1.conns k).getD ⟨0, spark, other⟩
  let s1 := connStrengthStep c0.strength targetW dt
  let ls2 := { ls1 with conns := connsSet ls1.conns k ⟨s1, spark, other⟩ }
  let gr := pickGiver spark other
  if 1 / 10 < s1 then applyTransfer O dt s1 gr.1 gr.2 ls2 else ls2

/-- One inner-loop iteration of the interaction pass (source lines 420–483):
skip already-processed pairs, mark the pair processed, and resolve it when
the distance is positive and below the interaction radius.  The two sparks
are dereferenced from the store at their current values. -/
def resolveNeighbor (O : Oracle) (dt : ℚ) (ls : LoopSt) (i j : ℕ) : LoopSt :=
  match getSpark ls.sparks i, getSpark ls.sparks j with
  | some spark, some other =>
    let k := pairKey spark.id other.id
    if k ∈ ls.processed then ls
    else
      let ls1 := { ls with processed := k :: ls.processed }
      let dist := O.hyp (other.x - spark.x) (other.y - spark.y)
      if dist < interactionRadius ∧ 0 < dist then resolvePair O dt ls1 spark other k dist
      else ls1
  | _, _ => ls

/-- The neighbor list queried for the spark with id `i` (source line 418). -/
def neighborsOf (grid : SpatialGrid) (sparks : List Spark) (i : ℕ) : List ℕ :=
  match getSpark sparks i with
  | some s => SpatialGrid.getNeighbors grid interactionRadius i s.x s.y
  | none => []

/-- The inner `for (const other of neighbors)` loop. -/
def innerLoop (O : Oracle) (dt : ℚ) (i : ℕ) (ns : List ℕ) (ls : LoopSt) : LoopSt :=
  ns.foldl (fun a j => resolveNeighbor O dt a i j) ls

/-- The outer `for (const spark of this.sparks)` loop (source lines 415–484):
before each spark's scan the hard cap is tested and the loop breaks once
`interactions ≥ cap`; the cap is *not* re-tested inside a spark's scan. -/
def outerLoop (O : Oracle) (cap : ℕ) (dt : ℚ) (grid : SpatialGrid) :
    List ℕ → LoopSt → LoopSt
  | [], ls => ls
  | i :: rest, ls =>
    if cap ≤ ls.interactions then ls
    else outerLoop O cap dt grid rest (innerLoop O dt i (neighborsOf grid ls.sparks i) ls)

/-- The fade-out pass over connections not marked active this frame (source
lines 487–494): strength drops by `4.0 * dt` and the entry is deleted once it
reaches `≤ 0`. -/
def fadeInactive (dt : ℚ) (active : List (ℕ × ℕ)) (cs : ConnMap) : ConnMap :=
  cs.filterMap fun kc =>
    if kc.1 ∈ active then some kc
    else
      let s1 := kc.2.strength - 4 * dt
      if s1 ≤ 0 then none else some (kc.1, { kc.2 with strength := s1 })

/-- Source `processInteractions(dt)` (lines 404–495): rebuild the grid, run
the capped pair-resolution loop, then fade inactive connections.  The whole
loop state is returned so that the `interactions` counter is observable. -/
def processInteractions (O : Oracle) (cap : ℕ) (dt : ℚ) (sparks : List Spark)
    (flows : List FlowParticle) (conns : ConnMap) (rng : ℕ) : LoopSt :=
  let grid := buildGrid interactionRadius sparks
  let ls := outerLoop O cap dt grid (sparks.map fun s => s.id)
    ⟨sparks, flows, conns, 0, [], [], rng⟩
  { ls with conns := fadeInactive dt ls.active ls.conns }

/-- The engine state (the mutable fields of `SparkSystem` the simulation
reads): spark list, flow particles, connection ledger, population target,
spawn accumulator, last frame timestamp, the id counter (the source's global
`sparkIdCounter`) and the random-stream index. -/
structure SysState where
  sparks : List Spark
  flowParticles : List FlowParticle
  connections : ConnMap
  sparkCount : ℕ
  spawnAccumulator : ℚ
  lastTime : ℚ
  nextId : ℕ
  rngIndex : ℕ
  deriving Repr

/-- Source `spawnSpark()` (lines 389–397): no-op at the population cap, else
push a freshly randomised spark; the new spark's id is the current counter
value.  The randomised fields come from the oracle. -/
def spawnSpark (O : Oracle) (cnt : ℕ) (p : List Spark × ℕ) : List Spark × ℕ :=
  if cnt ≤ p.1.length then p
  else (p.1 ++ [{ O.fresh p.2 with id := p.2 }], p.2 + 1)

/-- The `while (spawnAccumulator >= 1)` loop body run `n` times: each
iteration calls `spawnSpark` (which may no-op at the cap) and consumes one
unit of accumulator. -/
def spawnLoop (O : Oracle) (cnt : ℕ) : ℕ → List Spark × ℕ → List Spark × ℕ
  | 0, p => p
  | n + 1, p => spawnLoop O cnt n (spawnSpark O cnt p)

/-- Source line 498: the elapsed time of a frame,
`Math.min((time - lastTime) / 1000, 0.1)` — capped at 0.1 s to prevent
simulation jumps after a stall. -/
def frameDt (time last : ℚ) : ℚ :=
  min ((time - last) / 1000) (1 / 10)

/-- Source lines 509–514: advance all sparks by `Spark.update` and keep
exactly those whose update reported them alive. -/
def advanceSparks (O : Oracle) (dt time : ℚ) (sparks : List Spark) : List Spark :=
  ((sparks.map fun s => Spark.update O dt time s).filter fun q => q.2).map fun q => q.1

/-- Source lines 517–521: delete every connection one of whose endpoints is
not among the alive spark ids. -/
def cleanupConns (aliveIds : List ℕ) (cs : ConnMap) : ConnMap :=
  cs.filter fun kc => kc.2.a.id ∈ aliveIds ∧ kc.2.b.id ∈ aliveIds

/-- The spawn phase of a frame (source lines 502–506): the accumulator grows
by `spawnRatePerSec * dt` and the `while (acc ≥ 1)` loop runs `⌊acc⌋.toNat`
times. -/
def spawnStage (O : Oracle) (time : ℚ) (st : SysState) : List Spark × ℕ :=
  spawnLoop O st.sparkCount
    (⌊st.spawnAccumulator + spawnRatePerSec * frameDt time st.lastTime⌋).toNat
    (st.sparks, st.nextId)

/-- The spark population after a frame's spawn/advance/cull phases. -/
def advanceStage (O : Oracle) (time : ℚ) (st : SysState) : List Spark :=
  advanceSparks O (frameDt time st.lastTime) time (spawnStage O time st).1

/-- The interaction pass of a frame, run on the advanced population and the
cleaned connection ledger. -/
def interactStage (O : Oracle) (cap : ℕ) (time : ℚ) (st : SysState) : LoopSt :=
  processInteractions O cap (frameDt time st.lastTime) (advanceStage O time st)
    st.flowParticles
    (cleanupConns ((advanceStage O time st).map fun s => s.id) st.connections)
    st.rngIndex

/-- Source `update(time)` (lines 497–528): clamp the elapsed time to 0.1 s,
spawn under the rate budget, advance and cull sparks, purge connections whose
endpoints died, run the interaction pass, advance and cull flow particles
(a flow particle is dropped exactly when its own update returns not-alive). -/
def sysUpdate (O : Oracle) (cap : ℕ) (time : ℚ) (st : SysState) : SysState :=
  ⟨(interactStage O cap time st).sparks,
   (interactStage O cap time st).flows.filterMap fun fp =>
     FlowParticle.update O (interactStage O cap time st).sparks
       (frameDt time st.lastTime) fp,
   (interactStage O cap time st).conns,
   st.sparkCount,
   st.spawnAccumulator + spawnRatePerSec * frameDt time st.lastTime -
     (⌊st.spawnAccumulator + spawnRatePerSec * frameDt time st.lastTime⌋).toNat,
   time,
   (spawnStage O time st).2,
   (interactStage O cap time st).rng⟩

/-- A sequence of frames: fold `sysUpdate` over the list of frame timestamps. -/
def runUpdates (O : Oracle) (cap : ℕ) (st : SysState) : List ℚ → SysState
  | [] => st
  | t :: ts => runUpdates O cap (sysUpdate O cap t st) ts

/-- The per-frame elapsed times (`dt`) the engine computes for a sequence of
frame timestamps, starting from the given `lastTime`. -/
def frameDts (last : ℚ) : List ℚ → List ℚ
  | [] => []
  | t :: ts => frameDt t last :: frameDts t ts

/-- The largest neighbor-list length over a spark population (the maximal
number of grid neighbors any single particle scans this frame). -/
def maxNeighborLen (sparks : List Spark) : ℕ :=
  ((sparks.map fun s =>
    (neighborsOf (buildGrid interactionRadius sparks) sparks s.id).length).foldr max 0)

/-! ## Basic lemmas about the utility functions -/

theorem le_clamp {α : Type} [LinearOrder α] (v mn mx : α) : mn ≤ clamp v mn mx :=
  le_max_left _ _

theorem clamp_le {α : Type} [LinearOrder α] {mn mx : α} (v : α) (h : mn ≤ mx) :
    clamp v mn mx ≤ mx :=
  max_le h (min_le_left _ _)

theorem clamp_eq_of_mem {α : Type} [LinearOrder α] {v mn mx : α} (h1 : mn ≤ v)
    (h2 : v ≤ mx) : clamp v mn mx = v := by
  unfold clamp
  rw [min_eq_right h2, max_eq_right h1]

theorem smoothstep_nonneg (edge0 edge1 x : ℚ) : 0 ≤ smoothstep edge0 edge1 x := by
  unfold smoothstep
  have h0 : (0 : ℚ) ≤ clamp ((x - edge0) / (edge1 - edge0)) 0 1 := le_clamp _ _ _
  have h1 : clamp ((x - edge0) / (edge1 - edge0)) 0 1 ≤ 1 := clamp_le _ (by norm_num)
  nlinarith

theorem smoothstep_le_one (edge0 edge1 x : ℚ) : smoothstep edge0 edge1 x ≤ 1 := by
  unfold smoothstep
  have h0 : (0 : ℚ) ≤ clamp ((x - edge0) / (edge1 - edge0)) 0 1 := le_clamp _ _ _
  have h1 : clamp ((x - edge0) / (edge1 - edge0)) 0 1 ≤ 1 := clamp_le _ (by norm_num)
  nlinarith [sq_nonneg (1 - clamp ((x - edge0) / (edge1 - edge0)) 0 1)]

/-! ## Store lemmas: the interaction pass only rewrites energy, ring and color

Every mutation of the spark store during the interaction pass is a `map`
whose function preserves id, position and polarity.  This is the backbone of
the cap bound (neighbor lists are stable during the pass), of the polarity
stability claim and of the energy invariant. -/

/-- A store rewrite that leaves id, position and polarity untouched. -/
def KinPreserving (f : Spark → Spark) : Prop :=
  ∀ s, (f s).id = s.id ∧ (f s).x = s.x ∧ (f s).y = s.y ∧ (f s).polarity = s.polarity

theorem kinPreserving_id : KinPreserving id :=
  fun _ => ⟨rfl, rfl, rfl, rfl⟩

theorem kinPreserving_comp {f g : Spark → Spark} (hf : KinPreserving f)
    (hg : KinPreserving g) : KinPreserving (g ∘ f) := by
  intro s
  obtain ⟨h1, h2, h3, h4⟩ := hf s
  obtain ⟨g1, g2, g3, g4⟩ := hg (f s)
  exact ⟨g1.trans h1, g2.trans h2, g3.trans h3, g4.trans h4⟩

theorem getSpark_cons (a : Spark) (l : List Spark) (i : ℕ) :
    getSpark (a :: l) i = if a.id = i then some a else getSpark l i := by
  by_cases h : a.id = i <;> simp [getSpark, List.find?_cons, h]

theorem getSpark_mem {l : List Spark} {i : ℕ} {s : Spark}
    (h : getSpark l i = some s) : s ∈ l :=
  List.mem_of_find?_eq_some h

theorem getSpark_id {l : List Spark} {i : ℕ} {s : Spark}
    (h : getSpark l i = some s) : s.id = i := by
  have := List.find?_some h
  simpa using this

theorem getSpark_map {f : Spark → Spark} (hf : ∀ s, (f s).id = s.id)
    (l : List Spark) (i : ℕ) :
    getSpark (l.map f) i = (getSpark l i).map f := by
  induction l with
  | nil => rfl
  | cons a l ih =>
    rw [List.map_cons, getSpark_cons, getSpark_cons]
    by_cases h : a.id = i
    · rw [if_pos (by rw [hf a, h]), if_pos h]
      rfl
    · rw [if_neg (by rw [hf a]; exact h), if_neg h, ih]

theorem neighborsOf_map {f : Spark → Spark} (hf : KinPreserving f)
    (grid : SpatialGrid) (l : List Spark) (i : ℕ) :
    neighborsOf grid (l.map f) i = neighborsOf grid l i := by
  unfold neighborsOf
  rw [getSpark_map (fun s => (hf s).1) l i]
  cases h : getSpark l i with
  | none => rfl
  | some s =>
    simp [(hf s).2.1, (hf s).2.2.1]

theorem mapSpark_eq_map (l : List Spark) (i : ℕ) (g : Spark → Spark) :
    mapSpark l i g = l.map fun s => if s.id = i then g s else s :=
  rfl

/-! ## Energy bounds the transfer step satisfies -/

theorem transferDelta_nonneg (g w dt : ℚ) : 0 ≤ transferDelta g w dt :=
  mul_nonneg (le_clamp _ _ _) (le_max_left _ _)

theorem transferDelta_le (g w dt : ℚ) (hg : energyFloor ≤ g) :
    transferDelta g w dt ≤ g - energyFloor := by
  unfold transferDelta
  have h1 : clamp (w * transferRatePerSec * dt) 0 1 ≤ 1 := clamp_le _ (by norm_num)
  have h0 : (0 : ℚ) ≤ clamp (w * transferRatePerSec * dt) 0 1 := le_clamp _ _ _
  rw [max_eq_right (by linarith)]
  nlinarith

theorem transferDelta_of_le_floor (g w dt : ℚ) (hg : g ≤ energyFloor) :
    transferDelta g w dt = 0 := by
  unfold transferDelta
  rw [max_eq_left (by linarith), mul_zero]

/-- The giver's side of the transfer: its energy never increases, never drops
below `min energyFloor g`, and stays in the invariant band. -/
theorem energyTransfer_giver (g r w dt : ℚ) :
    (energyTransfer g r w dt).1 ≤ g ∧
    min energyFloor g ≤ (energyTransfer g r w dt).1 := by
  unfold energyTransfer
  constructor
  · have := transferDelta_nonneg g w dt
    simp only
    linarith
  · by_cases hg : energyFloor ≤ g
    · have := transferDelta_le g w dt hg
      simp only
      have : energyFloor ≤ g - transferDelta g w dt := by linarith
      exact le_trans (min_le_left _ _) this
    · rw [transferDelta_of_le_floor g w dt (by linarith)]
      simp only [sub_zero]
      exact min_le_right _ _

/-- The receiver's side of the transfer: its energy never decreases and is
capped at 1. -/
theorem energyTransfer_receiver (g r w dt : ℚ) (hr : r ≤ 1) :
    r ≤ (energyTransfer g r w dt).2 ∧ (energyTransfer g r w dt).2 ≤ 1 := by
  unfold energyTransfer
  have := transferDelta_nonneg g w dt
  exact ⟨le_min hr (by linarith), min_le_left _ _⟩

/-- The transfer keeps both energies inside the invariant band. -/
theorem energyTransfer_einv (g r w dt : ℚ) (hg : einv g) (hr : einv r) :
    einv (energyTransfer g r w dt).1 ∧ einv (energyTransfer g r w dt).2 := by
  obtain ⟨hg0, hg1⟩ := hg
  obtain ⟨hr0, hr1⟩ := hr
  have h1 := energyTransfer_giver g r w dt
  have h2 := energyTransfer_receiver g r w dt hr1
  have hfl : energyFloor * (1 / 2) ≤ min energyFloor g :=
    le_min (by norm_num [energyFloor]) hg0
  exact ⟨⟨le_trans hfl h1.2, le_trans h1.1 hg1⟩, ⟨le_trans hr0 h2.1, h2.2⟩⟩

/-! ## Shape of the interaction pass on the spark store -/

/-- The flow-spawn step never touches the spark store. -/
theorem spawnFlowMaybe_sparks (O : Oracle) (dt w : ℚ) (gv rv : Spark) (ls : LoopSt) :
    (spawnFlowMaybe O dt w gv rv ls).sparks = ls.sparks := by
  unfold spawnFlowMaybe
  split_ifs <;> rfl

/-- The flow-spawn step never touches the connection ledger. -/
theorem spawnFlowMaybe_conns (O : Oracle) (dt w : ℚ) (gv rv : Spark) (ls : LoopSt) :
    (spawnFlowMaybe O dt w gv rv ls).conns = ls.conns := by
  unfold spawnFlowMaybe
  split_ifs <;> rfl

/-- The flow-spawn step never touches the interaction counter. -/
theorem spawnFlowMaybe_interactions (O : Oracle) (dt w : ℚ) (gv rv : Spark)
    (ls : LoopSt) :
    (spawnFlowMaybe O dt w gv rv ls).interactions = ls.interactions := by
  unfold spawnFlowMaybe
  split_ifs <;> rfl

/-- The transfer body rewrites the store by a kinematics-preserving map whose
images keep the energy invariant, and changes neither ledger nor counter. -/
theorem applyTransfer_shape (O : Oracle) (dt w : ℚ) (giver receiver : Spark)
    (ls : LoopSt) (hg : giver ∈ ls.sparks) (hr : receiver ∈ ls.sparks) :
    ∃ f, KinPreserving f ∧
      (applyTransfer O dt w giver receiver ls).sparks = ls.sparks.map f ∧
      ((∀ s ∈ ls.sparks, einv s.energy) → ∀ s ∈ ls.sparks, einv (f s).energy) := by
  unfold applyTransfer
  simp only [mapSpark_eq_map, List.map_map, spawnFlowMaybe_sparks]
  refine ⟨_, fun s => ?_, rfl, fun H s hs => ?_⟩
  · simp only [Function.comp_apply]
    split_ifs <;> exact ⟨rfl, rfl, rfl, rfl⟩
  · simp only [Function.comp_apply]
    split_ifs
    · exact (energyTransfer_einv _ _ _ _ (H giver hg) (H receiver hr)).2
    · exact (energyTransfer_einv _ _ _ _ (H giver hg) (H receiver hr)).1
    · exact (energyTransfer_einv _ _ _ _ (H giver hg) (H receiver hr)).2
    · exact H s hs

/-- Resolution of one pair rewrites the store by a kinematics-preserving map
whose images keep the energy invariant. -/
theorem resolvePair_shape (O : Oracle) (dt : ℚ) (ls : LoopSt) (spark other : Spark)
    (k : ℕ × ℕ) (dist : ℚ) (hsm : spark ∈ ls.sparks) (hom : other ∈ ls.sparks) :
    ∃ f, KinPreserving f ∧
      (resolvePair O dt ls spark other k dist).sparks = ls.sparks.map f ∧
      ((∀ s ∈ ls.sparks, einv s.energy) → ∀ s ∈ ls.sparks, einv (f s).energy) := by
  have hgm : (pickGiver spark other).1 ∈ ls.sparks := by
    unfold pickGiver
    split_ifs <;> assumption
  have hrm : (pickGiver spark other).2 ∈ ls.sparks := by
    unfold pickGiver
    split_ifs <;> assumption
  simp only [resolvePair]
  split_ifs
  · exact applyTransfer_shape O dt _ _ _ _ hgm hrm
  · exact ⟨id, kinPreserving_id, (List.map_id _).symm, fun H s hs => H s hs⟩

/-- One inner-loop iteration rewrites the store by a kinematics-preserving
map whose images keep the energy invariant. -/
theorem resolveNeighbor_shape (O : Oracle) (dt : ℚ) (ls : LoopSt) (i j : ℕ) :
    ∃ f, KinPreserving f ∧
      (resolveNeighbor O dt ls i j).sparks = ls.sparks.map f ∧
      ((∀ s ∈ ls.sparks, einv s.energy) → ∀ s ∈ ls.sparks, einv (f s).energy) := by
  unfold resolveNeighbor
  cases hsp : getSpark ls.sparks i with
  | none =>
    cases hot : getSpark ls.sparks j with
    | none => exact ⟨id, kinPreserving_id, (List.map_id _).symm, fun H s hs => H s hs⟩
    | some other => exact ⟨id, kinPreserving_id, (List.map_id _).symm, fun H s hs => H s hs⟩
  | some spark =>
    cases hot : getSpark ls.sparks j with
    | none => exact ⟨id, kinPreserving_id, (List.map_id _).symm, fun H s hs => H s hs⟩
    | some other =>
      simp only
      split_ifs
      · exact ⟨id, kinPreserving_id, (List.map_id _).symm, fun H s hs => H s hs⟩
      · exact resolvePair_shape O dt _ spark other _ _ (getSpark_mem hsp) (getSpark_mem hot)
      · exact ⟨id, kinPreserving_id, (List.map_id _).symm, fun H s hs => H s hs⟩

theorem einv_all_map {l : List Spark} {f : Spark → Spark}
    (h : ∀ s ∈ l, einv (f s).energy) : ∀ t ∈ l.map f, einv t.energy := by
  intro t ht
  obtain ⟨s, hs, rfl⟩ := List.mem_map.mp ht
  exact h s hs

/-- The inner loop over a neighbor list rewrites the store by a
kinematics-preserving map whose images keep the energy invariant. -/
theorem innerLoop_shape (O : Oracle) (dt : ℚ) (i : ℕ) :
    ∀ (ns : List ℕ) (ls : LoopSt),
    ∃ f, KinPreserving f ∧
      (innerLoop O dt i ns ls).sparks = ls.sparks.map f ∧
      ((∀ s ∈ ls.sparks, einv s.energy) → ∀ s ∈ ls.sparks, einv (f s).energy) := by
  intro ns
  induction ns with
  | nil => exact fun ls => ⟨id, kinPreserving_id, (List.map_id _).symm, fun H s hs => H s hs⟩
  | cons j ns ih =>
    intro ls
    obtain ⟨f1, h1, e1, v1⟩ := resolveNeighbor_shape O dt ls i j
    obtain ⟨f2, h2, e2, v2⟩ := ih (resolveNeighbor O dt ls i j)
    refine ⟨f2 ∘ f1, kinPreserving_comp h1 h2, ?_, ?_⟩
    · show (innerLoop O dt i ns (resolveNeighbor O dt ls i j)).sparks = _
      rw [e2, e1, List.map_map]
    · intro H s hs
      have hall : ∀ t ∈ (resolveNeighbor O dt ls i j).sparks, einv t.energy := by
        rw [e1]
        exact einv_all_map (v1 H)
      have := v2 hall (f1 s) (by rw [e1]; exact List.mem_map_of_mem f1 hs)
      exact this

/-- The outer loop rewrites the store by a kinematics-preserving map whose
images keep the energy invariant. -/
theorem outerLoop_shape (O : Oracle) (cap : ℕ) (dt : ℚ) (grid : SpatialGrid) :
    ∀ (ids : List ℕ) (ls : LoopSt),
    ∃ f, KinPreserving f ∧
      (outerLoop O cap dt grid ids ls).sparks = ls.sparks.map f ∧
      ((∀ s ∈ ls.sparks, einv s.energy) → ∀ s ∈ ls.sparks, einv (f s).energy) := by
  intro ids
  induction ids with
  | nil => exact fun ls => ⟨id, kinPreserving_id, (List.map_id _).symm, fun H s hs => H s hs⟩
  | cons i ids ih =>
    intro ls
    unfold outerLoop
    split_ifs
    · exact ⟨id, kinPreserving_id, (List.map_id _).symm, fun H s hs => H s hs⟩
    · obtain ⟨f1, h1, e1, v1⟩ := innerLoop_shape O dt i (neighborsOf grid ls.sparks i) ls
      obtain ⟨f2, h2, e2, v2⟩ := ih (innerLoop O dt i (neighborsOf grid ls.sparks i) ls)
      refine ⟨f2 ∘ f1, kinPreserving_comp h1 h2, ?_, ?_⟩
      · rw [e2, e1, List.map_map]
      · intro H s hs
        have hall : ∀ t ∈ (innerLoop O dt i (neighborsOf grid ls.sparks i) ls).sparks,
            einv t.energy := by
          rw [e1]
          exact einv_all_map (v1 H)
        exact v2 hall (f1 s) (by rw [e1]; exact List.mem_map_of_mem f1 hs)

/-- The whole interaction pass rewrites the store by a kinematics-preserving
map whose images keep the energy invariant. -/
theorem processInteractions_shape (O : Oracle) (cap : ℕ) (dt : ℚ)
    (sparks : List Spark) (flows : List FlowParticle) (conns : ConnMap) (rng : ℕ) :
    ∃ f, KinPreserving f ∧
      (processInteractions O cap dt sparks flows conns rng).sparks = sparks.map f ∧
      ((∀ s ∈ sparks, einv s.energy) → ∀ s ∈ sparks, einv (f s).energy) := by
  unfold processInteractions
  exact outerLoop_shape O cap dt _ _ _

/-! ## The interaction counter and the per-frame cap -/

theorem applyTransfer_interactions (O : Oracle) (dt w : ℚ) (giver receiver : Spark)
    (ls : LoopSt) :
    (applyTransfer O dt w giver receiver ls).interactions = ls.interactions := by
  simp only [applyTransfer, spawnFlowMaybe_interactions]

theorem resolvePair_interactions (O : Oracle) (dt : ℚ) (ls : LoopSt)
    (spark other : Spark) (k : ℕ × ℕ) (dist : ℚ) :
    (resolvePair O dt ls spark other k dist).interactions = ls.interactions + 1 := by
  simp only [resolvePair]
  split_ifs
  · rw [applyTransfer_interactions]
  · rfl

theorem resolveNeighbor_interactions_le (O : Oracle) (dt : ℚ) (ls : LoopSt) (i j : ℕ) :
    (resolveNeighbor O dt ls i j).interactions ≤ ls.interactions + 1 := by
  unfold resolveNeighbor
  cases hsp : getSpark ls.sparks i with
  | none =>
    cases hot : getSpark ls.sparks j with
    | none => exact Nat.le_succ _
    | some other => exact Nat.le_succ _
  | some spark =>
    cases hot : getSpark ls.sparks j with
    | none => exact Nat.le_succ _
    | some other =>
      simp only
      split_ifs
      · exact Nat.le_succ _
      · rw [resolvePair_interactions]
      · exact Nat.le_succ _

theorem innerLoop_interactions_le (O : Oracle) (dt : ℚ) (i : ℕ) :
    ∀ (ns : List ℕ) (ls : LoopSt),
    (innerLoop O dt i ns ls).interactions ≤ ls.interactions + ns.length := by
  intro ns
  induction ns with
  | nil => exact fun ls => Nat.le_refl _
  | cons j ns ih =>
    intro ls
    have h1 := resolveNeighbor_interactions_le O dt ls i j
    have h2 := ih (resolveNeighbor O dt ls i j)
    show (innerLoop O dt i ns (resolveNeighbor O dt ls i j)).interactions ≤ _
    simp only [List.length_cons]
    omega

theorem le_foldr_max {l : List ℕ} {a : ℕ} (h : a ∈ l) : a ≤ l.foldr max 0 := by
  induction l with
  | nil => cases h
  | cons b l ih =>
    rcases List.mem_cons.mp h with rfl | h
    · exact le_max_left _ _
    · exact le_trans (ih h) (le_max_right _ _)

theorem neighborsOf_len_le (sparks : List Spark) (i : ℕ) :
    (neighborsOf (buildGrid interactionRadius sparks) sparks i).length ≤
      maxNeighborLen sparks := by
  cases h : getSpark sparks i with
  | none => simp [neighborsOf, h]
  | some s =>
    have hid : s.id = i := getSpark_id h
    have hrw : neighborsOf (buildGrid interactionRadius sparks) sparks i =
        SpatialGrid.getNeighbors (buildGrid interactionRadius sparks)
          interactionRadius i s.x s.y := by
      simp [neighborsOf, h]
    rw [hrw]
    unfold maxNeighborLen
    refine le_foldr_max (List.mem_map.mpr ⟨s, getSpark_mem h, ?_⟩)
    simp [neighborsOf, hid, h]

/-- The cap check happens only between particles: once the counter has room
`< cap` at the start of a scan, a single scan can add up to one interaction
per neighbor, so the final counter is bounded by `cap + maxNeighborLen`. -/
theorem outerLoop_interactions_le (O : Oracle) (cap : ℕ) (dt : ℚ)
    (sparks0 : List Spark) :
    ∀ (ids : List ℕ) (ls : LoopSt) (f : Spark → Spark), KinPreserving f →
    ls.sparks = sparks0.map f →
    ls.interactions ≤ cap + maxNeighborLen sparks0 →
    (outerLoop O cap dt (buildGrid interactionRadius sparks0) ids ls).interactions ≤
      cap + maxNeighborLen sparks0 := by
  intro ids
  induction ids with
  | nil => exact fun ls f _ _ hb => hb
  | cons i ids ih =>
    intro ls f hf he hb
    unfold outerLoop
    split_ifs with hcap
    · exact hb
    · have hns : neighborsOf (buildGrid interactionRadius sparks0) ls.sparks i =
          neighborsOf (buildGrid interactionRadius sparks0) sparks0 i := by
        rw [he, neighborsOf_map hf]
      have hlen : (neighborsOf (buildGrid interactionRadius sparks0) ls.sparks i).length ≤
          maxNeighborLen sparks0 := by
        rw [hns]
        exact neighborsOf_len_le sparks0 i
      have hil := innerLoop_interactions_le O dt i
        (neighborsOf (buildGrid interactionRadius sparks0) ls.sparks i) ls
      obtain ⟨g, hg, eg, _⟩ := innerLoop_shape O dt i
        (neighborsOf (buildGrid interactionRadius sparks0) ls.sparks i) ls
      refine ih _ (g ∘ f) (kinPreserving_comp hf hg) ?_ ?_
      · rw [eg, he, List.map_map]
      · omega

end SparkSim

namespace SparkSim

/-! ## Claim C1 — conservation of the energy transfer -/

/-- Claim C1, counterexample.  The claim asserts that for every resolved pair
the energy added to the receiver equals the energy subtracted from the giver,
"including the case where the receiver's energy is near 1".  At giver energy
1, receiver energy 0.99, strength 1 and dt = 0.1 s, the giver loses
`transferDelta = 0.051` while the receiver — capped at 1 by
`Math.min(1, receiver.energy + deltaEnergy)` — gains only `0.01`. -/
theorem claim_c1_counterexample :
    ¬ ((energyTransfer 1 (99 / 100) 1 (1 / 10)).2 - 99 / 100 =
        1 - (energyTransfer 1 (99 / 100) 1 (1 / 10)).1) := by
  norm_num [energyTransfer, transferDelta, clamp, transferRatePerSec, energyFloor]

/-- Claim C1, amended: the transfer is conservative exactly when the receiver
is not pushed past full energy.  If `r + transferDelta g w dt ≤ 1` then the
amount added to the receiver equals the amount subtracted from the giver;
in general the receiver gains `min (transferDelta) (1 - r)`, which is
strictly smaller when the cap at 1 bites. -/
theorem claim_c1_amended (g r w dt : ℚ)
    (h : r + transferDelta g w dt ≤ 1) :
    (energyTransfer g r w dt).2 - r = g - (energyTransfer g r w dt).1 := by
  unfold energyTransfer
  rw [min_eq_right h]
  ring

/-- Claim C1 witness: the amended conservation statement at a concrete pair
with receiver energy 1/2. -/
theorem claim_c1_witness :
    (1 : ℚ) / 2 + transferDelta 1 1 (1 / 10) ≤ 1 ∧
    (energyTransfer 1 (1 / 2) 1 (1 / 10)).2 - 1 / 2 =
      1 - (energyTransfer 1 (1 / 2) 1 (1 / 10)).1 := by
  refine ⟨?_, claim_c1_amended 1 (1 / 2) 1 (1 / 10) ?_⟩ <;>
    norm_num [transferDelta, clamp, transferRatePerSec, energyFloor]

/-! ## Claim C4 — the toroidal wrap and the position bounds -/

/-- Claim C4, counterexample.  The claim asserts the wrap never leaves a
coordinate at or above the bound.  The wrap tests `x > w` strictly, so the
coordinate `w` itself is returned unchanged: `wrapCoord 100 100 = 100`, which
is not `< 100`. -/
theorem claim_c4_counterexample :
    wrapCoord 100 100 = 100 ∧ ¬ wrapCoord 100 100 < 100 := by
  norm_num [wrapCoord]

/-- Claim C4, amended: the per-axis wrap keeps a coordinate in the closed
interval `[0, w]` whenever the pre-wrap value lies in `[-w, 2w]` (which holds
whenever the per-frame displacement is at most `w`); the right endpoint `w`
itself is attainable (see the counterexample), so the half-open interval
`[0, w)` of the claim is not an invariant, but the closed one is. -/
theorem claim_c4_amended (x w : ℚ) (h1 : -w ≤ x) (h2 : x ≤ 2 * w) :
    0 ≤ wrapCoord x w ∧ wrapCoord x w ≤ w := by
  simp only [wrapCoord]
  split_ifs <;> constructor <;> linarith

/-- Claim C4 witness: the amended bounds at the concrete pre-wrap coordinate
`-3` with width `110`. -/
theorem claim_c4_witness :
    (-110 : ℚ) ≤ -3 ∧ (-3 : ℚ) ≤ 2 * 110 ∧
    0 ≤ wrapCoord (-3) 110 ∧ wrapCoord (-3) 110 ≤ 110 := by
  refine ⟨by norm_num, by norm_num, ?_⟩
  exact claim_c4_amended (-3) 110 (by norm_num) (by norm_num)

/-! ## Claim C7 — color mixing at the endpoints -/

theorem gamma_ne_zero : GAMMA ≠ 0 := by
  norm_num [GAMMA]

/-- The gamma round trip is the identity on integer-valued channels in
`[0, 255]`: `(c/255)^2.2 ∈ [0,1]` so the clamp is a no-op, the powers cancel
exactly, and `Math.round` restores the integer. -/
theorem toSRGB_toLinear (n : ℕ) (h : n ≤ 255) : toSRGB (toLinear n) = n := by
  unfold toSRGB toLinear
  have hb0 : (0 : ℝ) ≤ (n : ℝ) / 255 := by positivity
  have hb1 : (n : ℝ) / 255 ≤ 1 := by
    rw [div_le_one (by norm_num)]
    exact_mod_cast (by exact_mod_cast h : (n : ℝ) ≤ 255)
  have hl0 : (0 : ℝ) ≤ ((n : ℝ) / 255) ^ GAMMA := Real.rpow_nonneg hb0 _
  have hl1 : ((n : ℝ) / 255) ^ GAMMA ≤ 1 :=
    Real.rpow_le_one hb0 hb1 (by norm_num [GAMMA])
  rw [clamp_eq_of_mem hl0 hl1, ← Real.rpow_mul hb0,
    mul_one_div_cancel gamma_ne_zero, Real.rpow_one,
    div_mul_cancel₀ (n : ℝ) (by norm_num : (255 : ℝ) ≠ 0)]
  exact round_natCast n

/-- Claim C7: with integer channels in `[0, 255]` (the 0–255 channel range of
the data model), `mixColorsLinear c1 c2 0` returns `c1` exactly — `lerp` at 0
is the first argument, the darkening factor at 0 is 1, and the gamma round
trip is exact on integers; and at `t = 1` the darkening factor
`1 - t(1-t)·0.15` equals 1, so `mixColorsLinear c1 c2 1` is exactly the gamma
round trip of `c2` with no darkening applied. -/
theorem claim_c7_mix_endpoints (a b c : ℕ) (c2 : ℝ × ℝ × ℝ)
    (ha : a ≤ 255) (hb : b ≤ 255) (hc : c ≤ 255) :
    mixColorsLinear ((a : ℝ), (b : ℝ), (c : ℝ)) c2 0 = ((a : ℤ), (b : ℤ), (c : ℤ)) ∧
    darkenFactor 1 = 1 ∧
    mixColorsLinear ((a : ℝ), (b : ℝ), (c : ℝ)) c2 1 = gammaRoundTrip c2 := by
  refine ⟨?_, by norm_num [darkenFactor], ?_⟩
  · have hd : darkenFactor 0 = 1 := by norm_num [darkenFactor]
    simp only [mixColorsLinear, lerp, hd, mul_zero, add_zero, mul_one]
    rw [toSRGB_toLinear a ha, toSRGB_toLinear b hb, toSRGB_toLinear c hc]
  · have hd : darkenFactor 1 = 1 := by norm_num [darkenFactor]
    simp only [mixColorsLinear, gammaRoundTrip, lerp, hd, mul_one]
    norm_num

/-- Claim C7 witness: the endpoint identities at the concrete color
`(235, 170, 60)` (the warm gold of the palette) against `(0, 0, 0)`. -/
theorem claim_c7_witness :
    mixColorsLinear ((235 : ℝ), (170 : ℝ), (60 : ℝ)) (0, 0, 0) 0 =
      ((235 : ℤ), (170 : ℤ), (60 : ℤ)) ∧
    darkenFactor 1 = 1 := by
  have h := claim_c7_mix_endpoints 235 170 60 (0, 0, 0)
    (by norm_num) (by norm_num) (by norm_num)
  exact ⟨by exact_mod_cast h.1, h.2.1⟩

/-! ## Claim C8 — connection strength approaches the target without overshoot -/

/-- Claim C8: for `0 ≤ dt < 1/fadeSpeed` (the fade time constant), one
smoothing step `connStrengthStep` moves the strength monotonically toward the
target weight and never past it, in both directions; and the instantaneous
target weight produced by `smoothstep(interactionRadius, 0, dist)` always
lies in `[0, 1]`, so the `[0, 1]` bounds assumed of the target hold for every
distance. -/
theorem claim_c8_no_overshoot (s T dt : ℚ)
    (hs0 : 0 ≤ s) (hs1 : s ≤ 1) (hT0 : 0 ≤ T) (hT1 : T ≤ 1)
    (hdt0 : 0 ≤ dt) (hdt1 : dt < 1 / fadeSpeed) :
    ((s ≤ T → s ≤ connStrengthStep s T dt ∧ connStrengthStep s T dt ≤ T) ∧
     (T ≤ s → T ≤ connStrengthStep s T dt ∧ connStrengthStep s T dt ≤ s)) ∧
    (∀ x : ℚ, 0 ≤ smoothstep interactionRadius 0 x ∧
      smoothstep interactionRadius 0 x ≤ 1) := by
  have hfs : fadeSpeed = 3 := rfl
  rw [hfs] at hdt1
  refine ⟨⟨?_, ?_⟩, fun x => ⟨smoothstep_nonneg _ _ x, smoothstep_le_one _ _ x⟩⟩
  · intro hsT
    have hpre0 : s ≤ s + (T - s) * fadeSpeed * dt := by
      rw [hfs]; nlinarith
    have hpre1 : s + (T - s) * fadeSpeed * dt ≤ T := by
      rw [hfs]; nlinarith
    rw [connStrengthStep, clamp_eq_of_mem (by linarith) (by linarith)]
    exact ⟨hpre0, hpre1⟩
  · intro hTs
    have hpre0 : T ≤ s + (T - s) * fadeSpeed * dt := by
      rw [hfs]; nlinarith
    have hpre1 : s + (T - s) * fadeSpeed * dt ≤ s := by
      rw [hfs]; nlinarith
    rw [connStrengthStep, clamp_eq_of_mem (by linarith) (by linarith)]
    exact ⟨hpre0, hpre1⟩

/-- Claim C8 witness: the no-overshoot bounds at strength 0, target 1/2 and
dt = 1/10 s. -/
theorem claim_c8_witness :
    (0 : ℚ) ≤ connStrengthStep 0 (1 / 2) (1 / 10) ∧
    connStrengthStep 0 (1 / 2) (1 / 10) ≤ 1 / 2 := by
  have h := claim_c8_no_overshoot 0 (1 / 2) (1 / 10)
    (by norm_num) (by norm_num) (by norm_num) (by norm_num) (by norm_num)
    (by norm_num [fadeSpeed])
  exact h.1.1 (by norm_num)

/-! ## Concrete fixtures for counterexamples and witnesses

`testSpark` builds a spark with explicit id, position and polarity; the other
fields are fixed benign values (zero velocity, energy at the floor, lifetime
10⁶ ms).  `testOracle` is the concrete oracle instance used by the closed
runs below.  All sparks in those runs sit on one horizontal line, so every
distance query is axis-aligned (`dy = 0`), where `|dx| + |dy|` equals
`Math.hypot dx dy` exactly.  The remaining fields stand for bounded
transcendental values and influence only drifted positions, energies and
colors; the observables the closed theorems assert (pair counts, ids, ledger
keys, flow survival) do not depend on them within the true functions'
bounds, and the claim-level general theorems are quantified over every
oracle, hence cover the true semantics outright. -/

def testSpark (i : ℕ) (x y pol : ℚ) : Spark :=
  ⟨i, x, y, 220, 220, 0, 0, 2, 3 / 20, 0, (0, 0, 0), 0, 1000000, pol, 0, 1⟩

def testOracle : Oracle :=
  ⟨fun _ => 0, fun _ => 0, fun _ => 1, fun _ => 1, fun dx dy => |dx| + |dy|,
   fun _ => 1, fun c _ _ => c, fun n => testSpark n 0 0 0⟩

/-- Three sparks on one line inside a single grid cell: pair distances from
the first spark are 50 and 100, both inside the 110 interaction radius. -/
def capSparks : List Spark :=
  [testSpark 0 5 5 (3 / 5), testSpark 1 55 5 (2 / 5), testSpark 2 105 5 (1 / 5)]

/-! ## Claim C2 — the per-frame interaction cap -/

set_option allowUnsafeReducibility true in
attribute [local semireducible] Rat.add Rat.mul Rat.inv Rat.sub in
/-- Claim C2, counterexample.  The cap is tested only in the outer loop
(before each spark's scan), never inside a scan: with
`maxInteractionsPerFrame = 1` and three mutually-close sparks, the first
spark's scan resolves both of its pairs, so the frame resolves 2 pairs —
more than the cap — refuting "once the count of resolved pairs reaches the
cap, no further pair is resolved that frame". -/
theorem claim_c2_counterexample :
    ¬ (processInteractions testOracle 1 (1 / 10) capSparks [] [] 0).interactions ≤ 1 ∧
    (processInteractions testOracle 1 (1 / 10) capSparks [] [] 0).interactions = 2 := by
  decide

/-- Claim C2, amended: the cap is only checked between particles — once the
counter reaches the cap no further particle begins its neighbor scan, but the
scan already in progress finishes, so a frame resolves at most
`cap + D` pairs where `D` bounds any single particle's neighbor-list length
(`maxNeighborLen`).  The claim's "at most cap pairs, regardless of how many
neighbors any single particle has" is false (see the counterexample); this
bound is what the code guarantees. -/
theorem claim_c2_amended (O : Oracle) (cap : ℕ) (dt : ℚ) (sparks : List Spark)
    (flows : List FlowParticle) (conns : ConnMap) (rng : ℕ) :
    (processInteractions O cap dt sparks flows conns rng).interactions ≤
      cap + maxNeighborLen sparks := by
  unfold processInteractions
  exact outerLoop_interactions_le O cap dt sparks _ _ id kinPreserving_id
    (List.map_id _).symm (Nat.zero_le _)

/-! ## Claim C5 — giver/receiver determined by polarity alone -/

/-- Claim C5: when the polarities differ, the particle with the strictly
greater polarity is the giver and the other the receiver, in both iteration
orders of the pair; the receiver's polarity is strictly below the giver's;
and polarity is never mutated — neither by the per-frame spark advance nor
by the whole interaction pass — so the roles of a pair are the same in every
resolution within a run. -/
theorem claim_c5_giver_by_polarity (a b : Spark) (h : b.polarity < a.polarity)
    (O : Oracle) (cap : ℕ) (dt time : ℚ) (s : Spark) (sparks : List Spark)
    (flows : List FlowParticle) (conns : ConnMap) (rng : ℕ) :
    pickGiver a b = (a, b) ∧ pickGiver b a = (a, b) ∧
    (pickGiver a b).2.polarity < (pickGiver a b).1.polarity ∧
    (Spark.update O dt time s).1.polarity = s.polarity ∧
    (processInteractions O cap dt sparks flows conns rng).sparks.map Spark.polarity =
      sparks.map Spark.polarity := by
  have h1 : pickGiver a b = (a, b) := by
    unfold pickGiver
    rw [if_pos h]
  have h2 : pickGiver b a = (a, b) := by
    unfold pickGiver
    rw [if_neg (lt_asymm h)]
  refine ⟨h1, h2, ?_, rfl, ?_⟩
  · rw [h1]
    exact h
  · obtain ⟨f, hf, e, _⟩ := processInteractions_shape O cap dt sparks flows conns rng
    rw [e, List.map_map]
    exact List.map_congr_left fun t _ => (hf t).2.2.2

/-- Claim C5 witness: the polarity rule at two concrete sparks with
polarities 3/5 and 2/5. -/
theorem claim_c5_witness :
    (testSpark 1 0 0 (2 / 5)).polarity < (testSpark 0 0 0 (3 / 5)).polarity ∧
    pickGiver (testSpark 0 0 0 (3 / 5)) (testSpark 1 0 0 (2 / 5)) =
      (testSpark 0 0 0 (3 / 5), testSpark 1 0 0 (2 / 5)) ∧
    pickGiver (testSpark 1 0 0 (2 / 5)) (testSpark 0 0 0 (3 / 5)) =
      (testSpark 0 0 0 (3 / 5), testSpark 1 0 0 (2 / 5)) := by
  have hp : (testSpark 1 0 0 (2 / 5)).polarity < (testSpark 0 0 0 (3 / 5)).polarity := by
    norm_num [testSpark]
  have h := claim_c5_giver_by_polarity (testSpark 0 0 0 (3 / 5)) (testSpark 1 0 0 (2 / 5))
    hp testOracle 0 0 0 (testSpark 0 0 0 0) [] [] [] 0
  exact ⟨hp, h.1, h.2.1⟩

/-! ## Claim C6 — the energy invariant -/

/-- Claim C6: every energy-mutating operation of the simulation keeps the
energy inside `[energyFloor·0.5, 1]`: the decay step (whose multiplicative
factor lies in `[0,1]` for `dt ≥ 0`) is floored at half the energy floor; a
transfer never drags the giver below `min energyFloor g` (so never below the
floor if it starts at or above it) and caps the receiver at 1; the energy
assigned at spawn (`0.4 + u·0.4`, `u ∈ [0,1]` a random draw) lies in the
band; and the whole interaction pass preserves the band for every spark in
the store. -/
theorem claim_c6_energy_invariant (e f g r w dt u : ℚ) (O : Oracle) (cap : ℕ)
    (dt' : ℚ) (sparks : List Spark) (flows : List FlowParticle) (conns : ConnMap)
    (rng : ℕ)
    (he : einv e) (hf0 : 0 ≤ f) (hf1 : f ≤ 1) (hg : einv g) (hr : einv r)
    (hu0 : 0 ≤ u) (hu1 : u ≤ 1)
    (hall : ∀ s ∈ sparks, einv s.energy) :
    einv (energyDecayStep e f) ∧
    einv (energyTransfer g r w dt).1 ∧ einv (energyTransfer g r w dt).2 ∧
    min energyFloor g ≤ (energyTransfer g r w dt).1 ∧
    (energyTransfer g r w dt).2 ≤ 1 ∧
    einv (spawnEnergy u) ∧
    (∀ s ∈ (processInteractions O cap dt' sparks flows conns rng).sparks,
      einv s.energy) := by
  obtain ⟨he0, he1⟩ := he
  have hts := energyTransfer_einv g r w dt hg hr
  obtain ⟨fm, hfm, em, vm⟩ := processInteractions_shape O cap dt' sparks flows conns rng
  refine ⟨⟨le_max_left _ _, ?_⟩, hts.1, hts.2,
    (energyTransfer_giver g r w dt).2, (energyTransfer_receiver g r w dt hr.2).2,
    ⟨?_, ?_⟩, ?_⟩
  · apply max_le
    · norm_num [energyFloor]
    · nlinarith
  · unfold spawnEnergy energyFloor
    nlinarith
  · unfold spawnEnergy
    nlinarith
  · rw [em]
    exact einv_all_map (vm hall)

/-- Claim C6 witness: the invariant statements at concrete values
(`e = 1/2`, decay factor `1/2`, giver energy 1, receiver energy 1/2,
spawn draw `1/2`, and the empty population for the pass). -/
theorem claim_c6_witness :
    einv (energyDecayStep (1 / 2) (1 / 2)) ∧
    einv (energyTransfer 1 (1 / 2) 1 (1 / 10)).1 ∧
    einv (energyTransfer 1 (1 / 2) 1 (1 / 10)).2 ∧
    einv (spawnEnergy (1 / 2)) := by
  have h := claim_c6_energy_invariant (1 / 2) (1 / 2) 1 (1 / 2) 1 (1 / 10) (1 / 2)
    testOracle 0 0 [] [] [] 0
    (by norm_num [einv, energyFloor]) (by norm_num) (by norm_num)
    (by norm_num [einv, energyFloor]) (by norm_num [einv, energyFloor])
    (by norm_num) (by norm_num) (by intro s hs; cases hs)
  exact ⟨h.1, h.2.1, h.2.2.1, h.2.2.2.2.2.1⟩

/-! ## Claim C9 — cap 0: no connections form, all decay away within 1/4 s -/

/-- With the cap at 0, the outer loop breaks before scanning any spark. -/
theorem outerLoop_cap_zero (O : Oracle) (dt : ℚ) (grid : SpatialGrid)
    (ids : List ℕ) (ls : LoopSt) : outerLoop O 0 dt grid ids ls = ls := by
  cases ids with
  | nil => rfl
  | cons i ids =>
    unfold outerLoop
    rw [if_pos (Nat.zero_le _)]

/-- With the cap at 0 the interaction pass resolves nothing: no pair is
processed or activated, and the ledger only goes through the inactive fade. -/
theorem processInteractions_cap_zero (O : Oracle) (dt : ℚ) (sparks : List Spark)
    (flows : List FlowParticle) (conns : ConnMap) (rng : ℕ) :
    (processInteractions O 0 dt sparks flows conns rng).conns =
      fadeInactive dt [] conns ∧
    (processInteractions O 0 dt sparks flows conns rng).interactions = 0 ∧
    (processInteractions O 0 dt sparks flows conns rng).active = [] := by
  simp only [processInteractions, outerLoop_cap_zero]
  refine ⟨?_, ?_, ?_⟩ <;> first
    | rfl
    | trivial

/-- Membership in the inactive fade with no active pairs: every surviving
entry is an old entry with strength lowered by exactly `4·dt`, still
positive. -/
theorem mem_fadeInactive_empty {dt : ℚ} {cs : ConnMap} {kc : (ℕ × ℕ) × Conn}
    (h : kc ∈ fadeInactive dt [] cs) :
    ∃ c, (kc.1, c) ∈ cs ∧ kc.2.strength = c.strength - 4 * dt ∧
      0 < kc.2.strength := by
  obtain ⟨a, ha, hfa⟩ := List.mem_filterMap.mp h
  simp only [List.not_mem_nil, if_false] at hfa
  split_ifs at hfa with hle
  rw [Option.some_inj] at hfa
  subst hfa
  exact ⟨a.2, by simpa using ha, rfl, not_le.mp hle⟩

theorem cleanupConns_mem {ids : List ℕ} {cs : ConnMap} {kc : (ℕ × ℕ) × Conn}
    (h : kc ∈ cleanupConns ids cs) : kc ∈ cs :=
  List.mem_of_mem_filter h

/-- With the cap at 0, every connection surviving one frame is an entry of
the previous ledger with the same key and strength lowered by exactly
`4 · dt` — no connection is created, activated or strengthened — and the
surviving strength is still positive. -/
theorem sysUpdate_cap0_conn_mem (O : Oracle) (t : ℚ) (st : SysState)
    (kc : (ℕ × ℕ) × Conn) (h : kc ∈ (sysUpdate O 0 t st).connections) :
    ∃ c, (kc.1, c) ∈ st.connections ∧
      kc.2.strength = c.strength - 4 * frameDt t st.lastTime ∧
      0 < kc.2.strength := by
  have h' : kc ∈ fadeInactive (frameDt t st.lastTime) []
      (cleanupConns ((advanceStage O t st).map fun s => s.id) st.connections) := by
    have he : (sysUpdate O 0 t st).connections = fadeInactive (frameDt t st.lastTime) []
        (cleanupConns ((advanceStage O t st).map fun s => s.id) st.connections) :=
      (processInteractions_cap_zero O (frameDt t st.lastTime) (advanceStage O t st)
        st.flowParticles _ st.rngIndex).1
    rw [← he]
    exact h
  obtain ⟨c, hc, he2, hp⟩ := mem_fadeInactive_empty h'
  exact ⟨c, cleanupConns_mem hc, he2, hp⟩

theorem sysUpdate_lastTime (O : Oracle) (cap : ℕ) (t : ℚ) (st : SysState) :
    (sysUpdate O cap t st).lastTime = t :=
  rfl

/-- Strength bookkeeping over a cap-0 frame sequence: a connection present at
the end was present at the start, its strength lowered by exactly four times
the accumulated simulated time. -/
theorem runUpdates_cap0_strength (O : Oracle) :
    ∀ (times : List ℚ) (st : SysState) (kc : (ℕ × ℕ) × Conn),
    kc ∈ (runUpdates O 0 st times).connections →
    ∃ c0, (kc.1, c0) ∈ st.connections ∧
      kc.2.strength = c0.strength - 4 * (frameDts st.lastTime times).sum := by
  intro times
  induction times with
  | nil =>
    intro st kc h
    refine ⟨kc.2, by simpa using h, ?_⟩
    simp [frameDts]
  | cons t ts ih =>
    intro st kc h
    obtain ⟨c1, hc1, he1⟩ := ih (sysUpdate O 0 t st) kc h
    obtain ⟨c0, hc0, he0, _⟩ := sysUpdate_cap0_conn_mem O t st (kc.1, c1) hc1
    refine ⟨c0, hc0, ?_⟩
    rw [sysUpdate_lastTime] at he1
    simp only [frameDts, List.sum_cons]
    simp only at he0
    rw [he1, he0]
    ring

/-- After at least one cap-0 frame, every surviving connection has strictly
positive strength (the fade pass deletes at `≤ 0`). -/
theorem runUpdates_cap0_pos (O : Oracle) :
    ∀ (times : List ℚ) (st : SysState) (kc : (ℕ × ℕ) × Conn), times ≠ [] →
    kc ∈ (runUpdates O 0 st times).connections → 0 < kc.2.strength := by
  intro times
  induction times with
  | nil => exact fun st kc h _ => absurd rfl h
  | cons t ts ih =>
    intro st kc _ h
    by_cases hts : ts = []
    · subst hts
      obtain ⟨c, _, _, hp⟩ := sysUpdate_cap0_conn_mem O t st kc h
      exact hp
    · exact ih (sysUpdate O 0 t st) kc hts h

/-- Claim C9: with `maxInteractionsPerFrame = 0`, a frame resolves no pair —
its surviving connections are exactly old entries faded by `4·dt`, so none is
created or activated — and once the accumulated simulated time of a frame
sequence reaches `1/4` s, a ledger whose strengths were at most 1 is empty:
every connection has been removed. -/
theorem claim_c9_cap_zero (O : Oracle) (st : SysState) (times : List ℚ)
    (t' : ℚ) (st' : SysState)
    (hstr : ∀ kc ∈ st.connections, kc.2.strength ≤ 1)
    (hsum : 1 / 4 ≤ (frameDts st.lastTime times).sum) :
    (runUpdates O 0 st times).connections = [] ∧
    (∀ kc ∈ (sysUpdate O 0 t' st').connections,
      ∃ c, (kc.1, c) ∈ st'.connections ∧
        kc.2.strength = c.strength - 4 * frameDt t' st'.lastTime) ∧
    (interactStage O 0 t' st').interactions = 0 := by
  refine ⟨?_, ?_, (processInteractions_cap_zero O _ _ _ _ _).2.1⟩
  case refine_2 =>
    intro kc h
    obtain ⟨c, hc, he, _⟩ := sysUpdate_cap0_conn_mem O t' st' kc h
    exact ⟨c, hc, he⟩
  cases htimes : times with
  | nil =>
    subst htimes
    simp [frameDts] at hsum
    linarith
  | cons t ts =>
    subst htimes
    rw [List.eq_nil_iff_forall_not_mem]
    intro kc hmem
    obtain ⟨c0, hc0, he⟩ := runUpdates_cap0_strength O _ st kc hmem
    have hpos := runUpdates_cap0_pos O _ st kc (by simp) hmem
    have hle := hstr (kc.1, c0) hc0
    simp only at hle
    linarith

/-- Claim C9 witness: a ledger with one strength-1/2 connection and three
frames of 0.1 s each (accumulated 0.3 s ≥ 1/4 s) ends empty. -/
theorem claim_c9_witness :
    (∀ kc ∈ (⟨[], [], [((0, 1), ⟨1 / 2, testSpark 0 5 5 0, testSpark 1 55 5 0⟩)],
        10, 0, 0, 2, 0⟩ : SysState).connections, kc.2.strength ≤ 1) ∧
    (1 : ℚ) / 4 ≤ (frameDts (0 : ℚ) [100, 200, 300]).sum ∧
    (runUpdates testOracle 0
      (⟨[], [], [((0, 1), ⟨1 / 2, testSpark 0 5 5 0, testSpark 1 55 5 0⟩)],
        10, 0, 0, 2, 0⟩ : SysState) [100, 200, 300]).connections = [] := by
  have h1 : ∀ kc ∈ (⟨[], [], [((0, 1), ⟨1 / 2, testSpark 0 5 5 0, testSpark 1 55 5 0⟩)],
      10, 0, 0, 2, 0⟩ : SysState).connections, kc.2.strength ≤ 1 := by
    intro kc hk
    simp only [List.mem_singleton] at hk
    subst hk
    norm_num
  have h2 : (1 : ℚ) / 4 ≤ (frameDts (0 : ℚ) [100, 200, 300]).sum := by
    norm_num [frameDts, frameDt]
  exact ⟨h1, h2,
    (claim_c9_cap_zero testOracle _ [100, 200, 300] 0
      (⟨[], [], [], 0, 0, 0, 0, 0⟩ : SysState) h1 h2).1⟩

/-! ## Claim C3 — culling a dead particle -/

theorem connsSet_mem {cs : ConnMap} {k : ℕ × ℕ} {c : Conn} {kc : (ℕ × ℕ) × Conn}
    (h : kc ∈ connsSet cs k c) : kc ∈ cs ∨ kc = (k, c) := by
  unfold connsSet at h
  split_ifs at h with hany
  · obtain ⟨a, ha, hfa⟩ := List.mem_map.mp h
    split_ifs at hfa
    · right
      exact hfa.symm
    · left
      exact hfa ▸ ha
  · rcases List.mem_append.mp h with h1 | h1
    · left
      exact h1
    · right
      exact List.mem_singleton.mp h1

theorem applyTransfer_conns (O : Oracle) (dt w : ℚ) (giver receiver : Spark)
    (ls : LoopSt) : (applyTransfer O dt w giver receiver ls).conns = ls.conns := by
  simp only [applyTransfer, spawnFlowMaybe_conns]

/-- Every connection produced by one pair resolution either was already in
the ledger or references the two sparks of the pair. -/
theorem resolvePair_conns_avoid (O : Oracle) (dt : ℚ) (ls : LoopSt)
    (spark other : Spark) (k : ℕ × ℕ) (dist : ℚ) (bad : ℕ)
    (hc : ∀ kc ∈ ls.conns, kc.2.a.id ≠ bad ∧ kc.2.b.id ≠ bad)
    (hs : spark.id ≠ bad) (ho : other.id ≠ bad) :
    ∀ kc ∈ (resolvePair O dt ls spark other k dist).conns,
      kc.2.a.id ≠ bad ∧ kc.2.b.id ≠ bad := by
  intro kc hkc
  have hkc' : kc ∈ connsSet ls.conns k
      ⟨connStrengthStep ((connsGet ls.conns k).getD ⟨0, spark, other⟩).strength
        (smoothstep interactionRadius 0 dist) dt, spark, other⟩ := by
    simp only [resolvePair] at hkc
    split_ifs at hkc
    · rw [applyTransfer_conns] at hkc
      exact hkc
    · exact hkc
  rcases connsSet_mem hkc' with h1 | h1
  · exact hc kc h1
  · subst h1
    exact ⟨hs, ho⟩

/-- One inner-loop iteration cannot introduce a connection referencing an id
absent from the store. -/
theorem resolveNeighbor_conns_avoid (O : Oracle) (dt : ℚ) (ls : LoopSt) (i j : ℕ)
    (bad : ℕ) (hsp : ∀ s ∈ ls.sparks, s.id ≠ bad)
    (hc : ∀ kc ∈ ls.conns, kc.2.a.id ≠ bad ∧ kc.2.b.id ≠ bad) :
    ∀ kc ∈ (resolveNeighbor O dt ls i j).conns,
      kc.2.a.id ≠ bad ∧ kc.2.b.id ≠ bad := by
  unfold resolveNeighbor
  cases hspk : getSpark ls.sparks i with
  | none =>
    cases hot : getSpark ls.sparks j with
    | none => exact hc
    | some other => exact hc
  | some spark =>
    cases hot : getSpark ls.sparks j with
    | none => exact hc
    | some other =>
      simp only
      split_ifs
      · exact hc
      · exact resolvePair_conns_avoid O dt _ spark other _ _ bad hc
          (hsp spark (getSpark_mem hspk)) (hsp other (getSpark_mem hot))
      · exact hc

theorem innerLoop_conns_avoid (O : Oracle) (dt : ℚ) (i : ℕ) (bad : ℕ) :
    ∀ (ns : List ℕ) (ls : LoopSt), (∀ s ∈ ls.sparks, s.id ≠ bad) →
    (∀ kc ∈ ls.conns, kc.2.a.id ≠ bad ∧ kc.2.b.id ≠ bad) →
    ∀ kc ∈ (innerLoop O dt i ns ls).conns,
      kc.2.a.id ≠ bad ∧ kc.2.b.id ≠ bad := by
  intro ns
  induction ns with
  | nil => exact fun ls _ hc => hc
  | cons j ns ih =>
    intro ls hsp hc
    have hsp' : ∀ s ∈ (resolveNeighbor O dt ls i j).sparks, s.id ≠ bad := by
      obtain ⟨f, hf, he, _⟩ := resolveNeighbor_shape O dt ls i j
      rw [he]
      intro t ht
      obtain ⟨s, hs, rfl⟩ := List.mem_map.mp ht
      rw [(hf s).1]
      exact hsp s hs
    exact ih (resolveNeighbor O dt ls i j) hsp'
      (resolveNeighbor_conns_avoid O dt ls i j bad hsp hc)

theorem outerLoop_conns_avoid (O : Oracle) (cap : ℕ) (dt : ℚ) (grid : SpatialGrid)
    (bad : ℕ) :
    ∀ (ids : List ℕ) (ls : LoopSt), (∀ s ∈ ls.sparks, s.id ≠ bad) →
    (∀ kc ∈ ls.conns, kc.2.a.id ≠ bad ∧ kc.2.b.id ≠ bad) →
    ∀ kc ∈ (outerLoop O cap dt grid ids ls).conns,
      kc.2.a.id ≠ bad ∧ kc.2.b.id ≠ bad := by
  intro ids
  induction ids with
  | nil => exact fun ls _ hc => hc
  | cons i ids ih =>
    intro ls hsp hc
    unfold outerLoop
    split_ifs
    · exact hc
    · have hsp' : ∀ s ∈ (innerLoop O dt i (neighborsOf grid ls.sparks i) ls).sparks,
          s.id ≠ bad := by
        obtain ⟨f, hf, he, _⟩ := innerLoop_shape O dt i (neighborsOf grid ls.sparks i) ls
        rw [he]
        intro t ht
        obtain ⟨s, hs, rfl⟩ := List.mem_map.mp ht
        rw [(hf s).1]
        exact hsp s hs
      exact ih _ hsp'
        (innerLoop_conns_avoid O dt i bad (neighborsOf grid ls.sparks i) ls hsp hc)

theorem fadeInactive_avoid {dt : ℚ} {active : List (ℕ × ℕ)} {cs : ConnMap} {bad : ℕ}
    (hc : ∀ kc ∈ cs, kc.2.a.id ≠ bad ∧ kc.2.b.id ≠ bad) :
    ∀ kc ∈ fadeInactive dt active cs, kc.2.a.id ≠ bad ∧ kc.2.b.id ≠ bad := by
  intro kc h
  obtain ⟨a, ha, hfa⟩ := List.mem_filterMap.mp h
  by_cases hact : a.1 ∈ active
  · rw [if_pos hact, Option.some_inj] at hfa
    subst hfa
    exact hc a ha
  · rw [if_neg hact] at hfa
    simp only at hfa
    split_ifs at hfa with hle
    rw [Option.some_inj] at hfa
    subst hfa
    exact hc a ha

/-- The interaction pass cannot introduce a connection referencing an id that
is neither in the store nor already referenced by the ledger. -/
theorem processInteractions_conns_avoid (O : Oracle) (cap : ℕ) (dt : ℚ)
    (sparks : List Spark) (flows : List FlowParticle) (conns : ConnMap) (rng : ℕ)
    (bad : ℕ) (hsp : ∀ s ∈ sparks, s.id ≠ bad)
    (hc : ∀ kc ∈ conns, kc.2.a.id ≠ bad ∧ kc.2.b.id ≠ bad) :
    ∀ kc ∈ (processInteractions O cap dt sparks flows conns rng).conns,
      kc.2.a.id ≠ bad ∧ kc.2.b.id ≠ bad := by
  unfold processInteractions
  exact fadeInactive_avoid (outerLoop_conns_avoid O cap dt _ bad _ _ hsp hc)

theorem spawnLoop_mem (O : Oracle) (cnt : ℕ) :
    ∀ (n : ℕ) (p : List Spark × ℕ) (s : Spark), s ∈ (spawnLoop O cnt n p).1 →
      s ∈ p.1 ∨ p.2 ≤ s.id := by
  intro n
  induction n with
  | zero => exact fun p s h => Or.inl h
  | succ n ih =>
    intro p s h
    rcases ih (spawnSpark O cnt p) s h with h1 | h1
    · unfold spawnSpark at h1
      split_ifs at h1
      · exact Or.inl h1
      · rcases List.mem_append.mp h1 with h2 | h2
        · exact Or.inl h2
        · right
          simp only [List.mem_singleton] at h2
          subst h2
          exact le_refl _
    · unfold spawnSpark at h1
      split_ifs at h1
      · exact Or.inr h1
      · right
        simp only at h1
        omega

theorem Spark.update_id (O : Oracle) (dt time : ℚ) (s : Spark) :
    (Spark.update O dt time s).1.id = s.id :=
  rfl

theorem advanceSparks_mem {O : Oracle} {dt time : ℚ} {sparks : List Spark}
    {s' : Spark} (h : s' ∈ advanceSparks O dt time sparks) :
    ∃ s0 ∈ sparks, s' = (Spark.update O dt time s0).1 ∧
      (Spark.update O dt time s0).2 = true := by
  unfold advanceSparks at h
  obtain ⟨q, hq, rfl⟩ := List.mem_map.mp h
  obtain ⟨hq1, hq2⟩ := List.mem_filter.mp hq
  obtain ⟨s0, hs0, rfl⟩ := List.mem_map.mp hq1
  exact ⟨s0, hs0, rfl, by simpa using hq2⟩

/-- Claim C3, amended.  A particle whose age exceeds its lifetime is reported
not-alive by its update; after the engine's next update pass its id is gone
from the population and no connection references it (the ledger purge plus
the fact that the interaction pass only writes connections referencing live
store ids).  The flow-particle half of the original claim is false (see the
counterexample): a flow particle is removed only when its own progress
reaches 1 — its survival test never consults the liveness of the sparks it
references — so a flow particle referencing the dead particle can persist. -/
theorem claim_c3_amended (O : Oracle) (cap : ℕ) (time : ℚ) (st : SysState) (d : Spark)
    (hd : d ∈ st.sparks)
    (hnd : (st.sparks.map Spark.id).Nodup)
    (hfresh : d.id < st.nextId)
    (hage : d.lifetime < time - d.birth) :
    (Spark.update O (frameDt time st.lastTime) time d).2 = false ∧
    d.id ∉ (sysUpdate O cap time st).sparks.map Spark.id ∧
    (∀ kc ∈ (sysUpdate O cap time st).connections,
      kc.2.a.id ≠ d.id ∧ kc.2.b.id ≠ d.id) ∧
    (∀ (sp : List Spark) (dtx : ℚ) (fp : FlowParticle),
      (FlowParticle.update O sp dtx fp).isSome = true ↔
        fp.t + flowParticleSpeed /
          max (O.hyp (((getSpark sp fp.receiver.id).getD fp.receiver).x -
                      ((getSpark sp fp.giver.id).getD fp.giver).x)
                     (((getSpark sp fp.receiver.id).getD fp.receiver).y -
                      ((getSpark sp fp.giver.id).getD fp.giver).y)) 1 * dtx < 1) := by
  have h1 : (Spark.update O (frameDt time st.lastTime) time d).2 = false := by
    have hnl : ¬ (time - d.birth < d.lifetime) := not_lt.mpr (le_of_lt hage)
    simp [Spark.update, hnl]
  have hbad : ∀ s ∈ advanceStage O time st, s.id ≠ d.id := by
    intro s hsm
    have hsm' : s ∈ advanceSparks O (frameDt time st.lastTime) time
        (spawnStage O time st).1 := hsm
    obtain ⟨s0, hs0, rfl, halive⟩ := advanceSparks_mem hsm'
    rw [Spark.update_id]
    intro heq
    rcases spawnLoop_mem O st.sparkCount _ (st.sparks, st.nextId) s0 hs0 with hin | hge
    · have hsd : s0 = d := List.inj_on_of_nodup_map hnd hin hd heq
      rw [hsd, h1] at halive
      cases halive
    · simp only at hge
      omega
  refine ⟨h1, ?_, ?_, ?_⟩
  · intro hmem
    obtain ⟨t, ht, hteq⟩ := List.mem_map.mp hmem
    have ht2 : t ∈ (processInteractions O cap (frameDt time st.lastTime)
        (advanceStage O time st) st.flowParticles
        (cleanupConns ((advanceStage O time st).map fun s => s.id) st.connections)
        st.rngIndex).sparks := ht
    obtain ⟨f, hf, he, _⟩ := processInteractions_shape O cap (frameDt time st.lastTime)
      (advanceStage O time st) st.flowParticles
      (cleanupConns ((advanceStage O time st).map fun s => s.id) st.connections)
      st.rngIndex
    rw [he] at ht2
    obtain ⟨s, hs, rfl⟩ := List.mem_map.mp ht2
    rw [(hf s).1] at hteq
    exact hbad s hs hteq
  · intro kc hkc
    have hkc2 : kc ∈ (processInteractions O cap (frameDt time st.lastTime)
        (advanceStage O time st) st.flowParticles
        (cleanupConns ((advanceStage O time st).map fun s => s.id) st.connections)
        st.rngIndex).conns := hkc
    refine processInteractions_conns_avoid O cap _ _ _ _ _ d.id hbad ?_ kc hkc2
    intro kc' hkc'
    obtain ⟨hmem', hcond⟩ := List.mem_filter.mp hkc'
    simp only [decide_eq_true_eq] at hcond
    obtain ⟨hax, hbx⟩ := hcond
    constructor
    · obtain ⟨s, hs, hseq⟩ := List.mem_map.mp hax
      intro heq
      exact hbad s hs (hseq.trans heq)
    · obtain ⟨s, hs, hseq⟩ := List.mem_map.mp hbx
      intro heq
      exact hbad s hs (hseq.trans heq)
  · intro sp dtx fp
    simp only [FlowParticle.update]
    split_ifs with hcond
    · simpa using hcond
    · simpa using hcond

/-- A spark already past its lifetime at the probe time 1000 (born at 0,
lifetime 100 ms). -/
def deadSpark : Spark :=
  ⟨0, 10, 10, 220, 220, 0, 0, 2, 3 / 20, 0, (0, 0, 0), 0, 100, 1 / 2, 0, 1⟩

/-- A spark still alive at the probe time (born at 900, lifetime 10⁶ ms). -/
def liveSpark : Spark :=
  ⟨1, 60, 10, 220, 220, 0, 0, 2, 3 / 20, 0, (0, 0, 0), 900, 1000000, 1 / 2, 0, 1⟩

/-- An engine state holding the dead and the live spark, one connection
between them, and one flow particle whose giver is the dead spark. -/
def deadFlowState : SysState :=
  ⟨[deadSpark, liveSpark], [⟨deadSpark, liveSpark, 0, (0, 0, 0), 4 / 5, 2⟩],
   [((0, 1), ⟨1 / 2, deadSpark, liveSpark⟩)], 10, 0, 900, 2, 0⟩

set_option allowUnsafeReducibility true in
attribute [local semireducible] Rat.add Rat.mul Rat.inv Rat.sub in
/-- Claim C3, counterexample.  One update pass at time 1000 on
`deadFlowState`: the dead spark is culled (only id 1 remains) and its
connection is purged — but the flow particle referencing the dead spark
(giver id 0) is still present, because flow particles are only removed once
their progress reaches 1.  This refutes "neither any connection nor any flow
particle referencing that particle is present in the engine's state". -/
theorem claim_c3_counterexample :
    (sysUpdate testOracle 1200 1000 deadFlowState).sparks.map Spark.id = [1] ∧
    (sysUpdate testOracle 1200 1000 deadFlowState).connections = [] ∧
    ((sysUpdate testOracle 1200 1000 deadFlowState).flowParticles.map
      fun fp => fp.giver.id) = [0] := by
  decide

/-- Claim C3 witness: the amended statement applied to `deadFlowState` and
its dead spark. -/
theorem claim_c3_witness :
    deadSpark ∈ deadFlowState.sparks ∧
    (deadFlowState.sparks.map Spark.id).Nodup ∧
    deadSpark.id < deadFlowState.nextId ∧
    deadSpark.lifetime < 1000 - deadSpark.birth ∧
    (Spark.update testOracle (frameDt 1000 deadFlowState.lastTime) 1000 deadSpark).2
      = false ∧
    deadSpark.id ∉ (sysUpdate testOracle 1200 1000 deadFlowState).sparks.map Spark.id := by
  have hd : deadSpark ∈ deadFlowState.sparks := List.mem_cons_self _ _
  have hnd : (deadFlowState.sparks.map Spark.id).Nodup := by decide
  have hfresh : deadSpark.id < deadFlowState.nextId := by decide
  have hage : deadSpark.lifetime < 1000 - deadSpark.birth := by
    norm_num [deadSpark]
  have h := claim_c3_amended testOracle 1200 1000 deadFlowState deadSpark
    hd hnd hfresh hage
  exact ⟨hd, hnd, hfresh, hage, h.1, h.2.1⟩

/-! ## Claim C10 — the neighbor query: no self, no duplicates -/

theorem foldl_insert_cell (cs : ℚ) :
    ∀ (l : List Spark) (g : SpatialGrid) (k : ℤ × ℤ),
    (l.foldl (SpatialGrid.insert cs) g) k =
      g k ++ (l.filter fun s => SpatialGrid.getKey cs s.x s.y = k).map Spark.id := by
  intro l
  induction l with
  | nil =>
    intro g k
    simp
  | cons a l ih =>
    intro g k
    rw [List.foldl_cons, ih]
    by_cases h : SpatialGrid.getKey cs a.x a.y = k
    · rw [List.filter_cons_of_pos (by simpa using h), List.map_cons]
      simp only [SpatialGrid.insert]
      rw [if_pos h.symm, List.append_assoc, List.singleton_append]
    · rw [List.filter_cons_of_neg (by simpa using h)]
      simp only [SpatialGrid.insert]
      rw [if_neg fun hk => h hk.symm]

/-- Each cell of the rebuilt grid holds exactly the ids of the sparks whose
position discretizes to that cell, in insertion order. -/
theorem buildGrid_cell (cs : ℚ) (l : List Spark) (k : ℤ × ℤ) :
    buildGrid cs l k =
      (l.filter fun s => SpatialGrid.getKey cs s.x s.y = k).map Spark.id := by
  unfold buildGrid
  rw [foldl_insert_cell]
  simp [SpatialGrid.empty]

theorem buildGrid_cell_nodup (cs : ℚ) (l : List Spark) (k : ℤ × ℤ)
    (hnd : (l.map Spark.id).Nodup) : (buildGrid cs l k).Nodup := by
  rw [buildGrid_cell]
  exact List.Nodup.sublist (List.Sublist.map Spark.id (List.filter_sublist l)) hnd

theorem buildGrid_mem (cs : ℚ) (l : List Spark) (k : ℤ × ℤ) (i : ℕ)
    (h : i ∈ buildGrid cs l k) :
    ∃ s ∈ l, s.id = i ∧ SpatialGrid.getKey cs s.x s.y = k := by
  rw [buildGrid_cell] at h
  obtain ⟨s, hs, rfl⟩ := List.mem_map.mp h
  obtain ⟨hs1, hs2⟩ := List.mem_filter.mp hs
  exact ⟨s, hs1, rfl, by simpa using hs2⟩

/-- A particle lives in exactly one cell, so with pairwise-distinct particle
ids two distinct cells never share an id. -/
theorem buildGrid_disjoint (cs : ℚ) (l : List Spark)
    (hnd : (l.map Spark.id).Nodup) {k1 k2 : ℤ × ℤ} (hk : k1 ≠ k2) :
    ∀ i, i ∈ buildGrid cs l k1 → i ∈ buildGrid cs l k2 → False := by
  intro i h1 h2
  obtain ⟨s1, hm1, hi1, hkey1⟩ := buildGrid_mem cs l k1 i h1
  obtain ⟨s2, hm2, hi2, hkey2⟩ := buildGrid_mem cs l k2 i h2
  have hs : s1 = s2 := List.inj_on_of_nodup_map hnd hm1 hm2 (hi1.trans hi2.symm)
  apply hk
  rw [← hkey1, hs, hkey2]

/-- The nine scanned cell keys are pairwise distinct. -/
theorem offsetKeys_nodup (c r : ℤ) :
    (neighborOffsets.map fun o => ((c + o.1, r + o.2) : ℤ × ℤ)).Nodup := by
  refine List.Nodup.map ?_ (by decide)
  intro o1 o2 h
  have h1 : c + o1.1 = c + o2.1 := congrArg Prod.fst h
  have h2 : r + o1.2 = r + o2.2 := congrArg Prod.snd h
  have e1 : o1.1 = o2.1 := by omega
  have e2 : o1.2 = o2.2 := by omega
  exact Prod.ext e1 e2

/-- Claim C10: for a population inserted once each into the grid (distinct
particles, hence pairwise-distinct ids), the neighbor query for a particle
never returns the particle itself and returns every other particle at most
once: each particle lives in exactly one cell, the nine scanned cell keys
are pairwise distinct, and the query filters the queried particle out of
every scanned cell. -/
theorem claim_c10_neighbors (cs : ℚ) (sparks : List Spark) (p : Spark)
    (hnd : (sparks.map Spark.id).Nodup) (hp : p ∈ sparks) :
    p.id ∉ SpatialGrid.getNeighbors (buildGrid cs sparks) cs p.id p.x p.y ∧
    (SpatialGrid.getNeighbors (buildGrid cs sparks) cs p.id p.x p.y).Nodup := by
  constructor
  · intro h
    unfold SpatialGrid.getNeighbors at h
    rw [List.mem_flatten] at h
    obtain ⟨l, hl, hpl⟩ := h
    obtain ⟨o, _, rfl⟩ := List.mem_map.mp hl
    have hh := (List.mem_filter.mp hpl).2
    simp at hh
  · unfold SpatialGrid.getNeighbors
    rw [List.nodup_flatten]
    constructor
    · intro l' hl'
      obtain ⟨o, _, rfl⟩ := List.mem_map.mp hl'
      exact (buildGrid_cell_nodup cs sparks _ hnd).filter _
    · rw [List.pairwise_map]
      have hoff := List.pairwise_map.mp (offsetKeys_nodup ⌊p.x / cs⌋ ⌊p.y / cs⌋)
      refine hoff.imp ?_
      intro o1 o2 hkne a ha1 ha2
      exact buildGrid_disjoint cs sparks hnd hkne a
        (List.mem_of_mem_filter ha1) (List.mem_of_mem_filter ha2)

/-- Claim C10 witness: the neighbor query at a concrete two-spark population. -/
theorem claim_c10_witness :
    (([testSpark 0 5 5 0, testSpark 1 55 5 0].map Spark.id).Nodup) ∧
    testSpark 0 5 5 0 ∈ [testSpark 0 5 5 0, testSpark 1 55 5 0] ∧
    (testSpark 0 5 5 0).id ∉ SpatialGrid.getNeighbors
      (buildGrid interactionRadius [testSpark 0 5 5 0, testSpark 1 55 5 0])
      interactionRadius (testSpark 0 5 5 0).id (testSpark 0 5 5 0).x
      (testSpark 0 5 5 0).y ∧
    (SpatialGrid.getNeighbors
      (buildGrid interactionRadius [testSpark 0 5 5 0, testSpark 1 55 5 0])
      interactionRadius (testSpark 0 5 5 0).id (testSpark 0 5 5 0).x
      (testSpark 0 5 5 0).y).Nodup := by
  have h1 : (([testSpark 0 5 5 0, testSpark 1 55 5 0].map Spark.id).Nodup) := by decide
  have h2 : testSpark 0 5 5 0 ∈ [testSpark 0 5 5 0, testSpark 1 55 5 0] :=
    List.mem_cons_self _ _
  have h := claim_c10_neighbors interactionRadius
    [testSpark 0 5 5 0, testSpark 1 55 5 0] (testSpark 0 5 5 0) h1 h2
  exact ⟨h1, h2, h.1, h.2⟩

end SparkSim
